import Mathlib

/-!
Verification of the virtual-persons generation pipeline.

The development shallowly embeds the class `VirtualPersons` (file
`VirtualPersons.js`) together with the JSON formats of `json-formats.js`.
External collaborators (the text-generation client, the image service, the
storage upload helper, the filename helper and the persistence service) are
modelled as oracle functions bundled in an `Env` record, and every outbound
call is recorded in a trace of `Call` events so that claims about which calls
are made can be stated and proved.

JavaScript conventions used by the source are modelled explicitly:
an optional string field is `Option String` and its truthiness test
(`if (x)`) is `jsTruthy` (absent and the empty string are falsy);
`Math.random()` is a rational parameter `r` with `0 ≤ r < 1`;
`Buffer.from(name).toString(base64chars)` is `encodeName`, built from an
executable UTF-8 encoder and an executable base64 encoder, both verified
against decoders below.
-/

namespace VirtualPersons

/-- JavaScript truthiness of an optional string field: `undefined`, `null`
and `""` are falsy, every other string is truthy. -/
def jsTruthy : Option String → Bool
  | none => false
  | some s => s != ""

/-! ### Base64 (the `Buffer.toString` encoding used by `encodeName`) -/

/-- The standard base64 alphabet, as the function from a 6-bit value to its
digit character (index 0 to 25 maps to A-Z, 26 to 51 to a-z, 52 to 61 to 0-9,
62 to the plus sign and 63 to the slash). -/
def b64Char (i : Nat) : Char :=
  if i < 26 then Char.ofNat (65 + i)
  else if i < 52 then Char.ofNat (97 + (i - 26))
  else if i < 62 then Char.ofNat (48 + (i - 52))
  else if i = 62 then '+' else '/'

/-- Inverse of `b64Char` on 6-bit values. -/
def b64Inv (c : Char) : Nat :=
  let n := c.toNat
  if 65 ≤ n ∧ n ≤ 90 then n - 65
  else if 97 ≤ n ∧ n ≤ 122 then n - 71
  else if 48 ≤ n ∧ n ≤ 57 then n + 4
  else if c = '+' then 62 else 63

/-- Standard base64 encoding with padding of a byte list, as produced by
`Buffer.prototype.toString` for the base64 encoding. -/
def b64Encode : List Nat → List Char
  | [] => []
  | [b1] => [b64Char (b1 / 4), b64Char (b1 % 4 * 16), '=', '=']
  | [b1, b2] =>
      [b64Char (b1 / 4), b64Char (b1 % 4 * 16 + b2 / 16), b64Char (b2 % 16 * 4), '=']
  | b1 :: b2 :: b3 :: rest =>
      b64Char (b1 / 4) :: b64Char (b1 % 4 * 16 + b2 / 16) ::
      b64Char (b2 % 16 * 4 + b3 / 64) :: b64Char (b3 % 64) :: b64Encode rest

/-- Base64 decoding, used only to certify that `b64Encode` is injective. -/
def b64Decode : List Char → Option (List Nat)
  | [] => some []
  | c1 :: c2 :: c3 :: c4 :: rest =>
      if c3 = '=' ∧ c4 = '=' ∧ rest = [] then
        some [b64Inv c1 * 4 + b64Inv c2 / 16]
      else if c4 = '=' ∧ rest = [] then
        some [b64Inv c1 * 4 + b64Inv c2 / 16,
              b64Inv c2 % 16 * 16 + b64Inv c3 / 4]
      else
        (b64Decode rest).map (fun t =>
          (b64Inv c1 * 4 + b64Inv c2 / 16) ::
          (b64Inv c2 % 16 * 16 + b64Inv c3 / 4) ::
          (b64Inv c3 % 4 * 64 + b64Inv c4) :: t)
  | _ => none

/-! ### UTF-8 (the bytes `Buffer.from(name)` feeds into base64) -/

/-- UTF-8 encoding of one Unicode scalar value, as the byte list produced by
`Buffer.from` for that character. -/
def utf8Char (c : Char) : List Nat :=
  let v := c.toNat
  if v < 128 then [v]
  else if v < 2048 then [192 + v / 64, 128 + v % 64]
  else if v < 65536 then [224 + v / 4096, 128 + v / 64 % 64, 128 + v % 64]
  else [240 + v / 262144, 128 + v / 4096 % 64, 128 + v / 64 % 64, 128 + v % 64]

/-- UTF-8 encoding of a character list. -/
def utf8Encode : List Char → List Nat
  | [] => []
  | c :: cs => utf8Char c ++ utf8Encode cs

/-- Decode one UTF-8 character from a first byte and the following bytes,
returning the character and the bytes left over. Used only to certify that
`utf8Encode` is injective. -/
def utf8DecodeChar (b : Nat) (rest : List Nat) : Option (Char × List Nat) :=
  if b < 128 then some (Char.ofNat b, rest)
  else if b < 224 then
    match rest with
    | b2 :: rest2 => some (Char.ofNat ((b - 192) * 64 + (b2 - 128)), rest2)
    | [] => none
  else if b < 240 then
    match rest with
    | b2 :: b3 :: rest3 =>
        some (Char.ofNat ((b - 224) * 4096 + (b2 - 128) * 64 + (b3 - 128)), rest3)
    | _ => none
  else
    match rest with
    | b2 :: b3 :: b4 :: rest4 =>
        some (Char.ofNat
          ((b - 240) * 262144 + (b2 - 128) * 4096 + (b3 - 128) * 64 + (b4 - 128)), rest4)
    | _ => none

/-- Fuelled UTF-8 decoding loop (any fuel at least the number of characters
suffices). -/
def utf8DecodeAux : Nat → List Nat → Option (List Char)
  | _, [] => some []
  | 0, _ :: _ => none
  | fuel + 1, b :: rest =>
      match utf8DecodeChar b rest with
      | none => none
      | some (c, rest2) => (utf8DecodeAux fuel rest2).map (fun t => c :: t)

/-- UTF-8 decoding, used only to certify that `utf8Encode` is injective. -/
def utf8Decode (l : List Nat) : Option (List Char) :=
  utf8DecodeAux l.length l

/-- `encodeName(name)`: `Buffer.from(name).toString` with the base64
encoding, i.e. base64 of the UTF-8 bytes of the name. -/
def encodeName (name : String) : String :=
  String.mk (b64Encode (utf8Encode name.data))

/-! ### Data model -/

/-- A stored record as returned by `VirtualPersonsService.find` with the
`name` and `nameEncoded` selection. -/
structure DbRecord where
  name : String
  nameEncoded : String
deriving DecidableEq, Repr

/-- A virtual-person record. Optional fields model JavaScript object fields
that may be absent; `id` models the Mongo-style `_id` (an object, hence
truthy exactly when present). -/
structure Person where
  name : String
  biography : Option String := none
  status : Option String := none
  headshot : Option String := none
  id : Option Nat := none
  nameEncoded : Option String := none
  link : Option String := none
  projectId : Option String := none
  userId : Option String := none
  projectName : Option String := none
deriving DecidableEq, Repr

/-- An image request as assembled by `generateHeadshot`: the service name,
the options passed to the `ImageService` constructor and the query passed to
`getPicture`. -/
structure ImageRequest where
  serviceName : String
  styles : List String
  aspectRatio : String
  query : String
deriving DecidableEq, Repr

/-- One outbound call of the pipeline: a chat completion for the names
prompt, a chat completion for a biography prompt, a persistence find, a
persistence create, an image-service picture request, a storage upload, a
persistence patch, a console warning, or a delay. -/
inductive Call where
  | chatNames (prompt : String)
  | chatBio (prompt : String)
  | find (encodedNames : List String)
  | create (payload : Person)
  | getPicture (req : ImageRequest)
  | upload (url : String)
  | patch (id : Option Nat) (payload : Person)
  | warn (msg : String)
  | delay (ms : Nat)
deriving DecidableEq, Repr

/-- The external collaborators of the pipeline, as oracles: the responses of
the text-generation client, the stored records visible to `find`, the result
of `create`, the image service, the storage uploader, the `createFileName`
helper from `utils`, the per-iteration image delays, and the constructor
data (`projectName`, `projectId`, `settings.userId`). -/
structure Env where
  projectName : String
  projectId : String
  userId : String
  namesOracle : String → List String
  db : List DbRecord
  createOracle : Person → Person
  picOracle : ImageRequest → Option String
  uploadOracle : String → String
  createFileName : String → String
  delays : Nat → Nat

/-! ### Prompt builders -/

/-- The names prompt of `getRandomVirtualPersons` (a two-line template
literal; the second line keeps the literal indentation of the source). -/
def namesPrompt (projectName : String) (number : Int) : String :=
  "We have a project named " ++ projectName ++ ". We need " ++ toString number ++
  " person names who are related to this project.\n     The persons should be between the ages of 30-40 years old. List " ++
  toString number ++ " full names and present in JSON format."

/-- `getPersonDataPrompt`: the biography/status prompt for one person. -/
def getPersonDataPrompt (projectName : String) (person : String) : String :=
  "We have a site named " ++ projectName ++ ". We have an author named " ++ person ++
  ".\n     I need 2 things in JSON format: biography and status."

/-- The image prompt of `generateHeadshot` (note the space before the comma,
exactly as in the template literal of the source). -/
def headshotPrompt (personName : String) : String :=
  "Photo headshot for the " ++ personName ++ " , Aged 30-40 years old."

/-- The full image request assembled by `generateHeadshot`: the fixed
service name, empty styles, aspect ratio 1:1 and the image prompt. -/
def generateHeadshotRequest (personName : String) : ImageRequest :=
  { serviceName := "midjourney"
    styles := []
    aspectRatio := "1:1"
    query := headshotPrompt personName }

/-! ### Pipeline stages -/

/-- The candidate count of `getRandomVirtualPersons`:
`Math.floor(Math.random() * (max - min) + min)`, with the draw of
`Math.random()` made explicit as a rational `r` in `[0, 1)`. -/
def getRandomCount (min max : Int) (r : ℚ) : Int :=
  ⌊r * ((max : ℚ) - (min : ℚ)) + (min : ℚ)⌋

/-- `getRandomVirtualPersons`: draw the count, build the names prompt, send
one chat completion validated against the persons-list schema, and extract
the name of every returned person. -/
def getRandomVirtualPersons (env : Env) (min max : Int) (r : ℚ) :
    List String × List Call :=
  let number := getRandomCount min max r
  let prompt := namesPrompt env.projectName number
  (env.namesOracle prompt, [Call.chatNames prompt])

/-- `filterExistingPersons`, pure part: encode every candidate name, collect
the stored records whose `nameEncoded` is among those encodings, and keep
the candidates whose name is not the name of such a record. -/
def filterExistingPersons (db : List DbRecord) (persons : List String) :
    List String :=
  let encodedNames := persons.map encodeName
  let existingPersons := db.filter (fun rec => rec.nameEncoded ∈ encodedNames)
  let existingPersonNames := existingPersons.map DbRecord.name
  persons.filter (fun person => person ∉ existingPersonNames)

/-- `filterExistingPersons` with its persistence `find` call recorded. -/
def filterExistingPersonsT (env : Env) (persons : List String) :
    List String × List Call :=
  (filterExistingPersons env.db persons, [Call.find (persons.map encodeName)])

/-- `getVirtualPersons`: random candidates, then deduplication, with a
console warning when fewer than `min` candidates remain. -/
def getVirtualPersons (env : Env) (min max : Int) (r : ℚ) :
    List String × List Call :=
  let random := getRandomVirtualPersons env min max r
  let filtered := filterExistingPersonsT env random.1
  let warnCalls :=
    if ((filtered.1).length : Int) < min then [Call.warn "not enough persons"] else []
  (filtered.1, random.2 ++ filtered.2 ++ warnCalls)

/-- A bare candidate name, as handed from `getVirtualPersons` to
`resolvePersonsData`: a string has no `biography`, `status`, `headshot` or
`_id` field, so it is modelled as a `Person` carrying only the name. -/
def toPerson (name : String) : Person :=
  { name := name }

/-- `resolvePersonsData`. A person whose `biography` and `status` are both
truthy is pushed onto the accumulator `personsData` and skipped. For any
other person the biography prompt is sent (one chat completion validated
against the person-data schema), and then the source executes
`personData.push(...)` where `personData` is the schema-validated response
object `\x7b biography, status \x7d`: a plain object has no `push` method, so the
call throws a `TypeError` and the iteration aborts; no record is ever
appended to the accumulator on this path. -/
def resolvePersonsData (env : Env) : List Person → Except String (List Person) × List Call
  | [] => (Except.ok [], [])
  | person :: rest =>
      if jsTruthy person.biography && jsTruthy person.status then
        let r := resolvePersonsData env rest
        match r.1 with
        | Except.ok ps => (Except.ok (person :: ps), r.2)
        | Except.error e => (Except.error e, r.2)
      else
        let prompt := getPersonDataPrompt env.projectName person.name
        (Except.error "TypeError: personData.push is not a function",
         [Call.chatBio prompt])

/-- The payload handed to `VirtualPersonsService.create`: the person spread
together with `nameEncoded`, `link`, `projectId`, `userId` and
`projectName`. -/
def createPayload (env : Env) (personData : Person) : Person :=
  { personData with
      nameEncoded := some (encodeName personData.name)
      link := some (env.createFileName personData.name)
      projectId := some env.projectId
      userId := some env.userId
      projectName := some env.projectName }

/-- `savePersonsData`: a person that already has an `_id` is pushed through
unchanged; otherwise one `create` call is made with the spread payload and
its result is pushed. -/
def savePersonsData (env : Env) : List Person → List Person × List Call
  | [] => ([], [])
  | personData :: rest =>
      let r := savePersonsData env rest
      if personData.id.isSome then
        (personData :: r.1, r.2)
      else
        let payload := createPayload env personData
        (env.createOracle payload :: r.1, Call.create payload :: r.2)

/-- `generateHeadshot`: assemble the image request, ask the image service
for a picture; on a missing URL warn and return nothing, otherwise upload
the remote image and return the stored URL. -/
def generateHeadshot (env : Env) (personName : String) :
    Option String × List Call :=
  let req := generateHeadshotRequest personName
  match env.picOracle req with
  | none => (none, [Call.getPicture req, Call.warn "Failed to generate headshot"])
  | some imageUrl =>
      (some (env.uploadOracle imageUrl), [Call.getPicture req, Call.upload imageUrl])

/-- `resolvePersonImages`: skip every person whose `headshot` is truthy;
otherwise generate a headshot, attach it when the result is truthy, patch
the record, and wait the drawn delay before the next person. The counter
`k` indexes the successive random delay draws. -/
def resolvePersonImages (env : Env) : Nat → List Person → List Person × List Call
  | _, [] => ([], [])
  | k, personData :: rest =>
      if jsTruthy personData.headshot then
        let r := resolvePersonImages env k rest
        (personData :: r.1, r.2)
      else
        let h := generateHeadshot env personData.name
        let updated := if jsTruthy h.1 then { personData with headshot := h.1 } else personData
        let r := resolvePersonImages env (k + 1) rest
        (updated :: r.1,
         h.2 ++ [Call.patch updated.id updated, Call.delay (env.delays k)] ++ r.2)

/-- `init(min, max)`: the whole pipeline. `getVirtualPersons` always
resolves to an array and a JavaScript array is truthy even when empty, so
the `if (!virtualPersons) return` guard never fires and is not modelled. A
`TypeError` thrown inside `resolvePersonsData` rejects the promise and
aborts the run before the later stages. -/
def init (env : Env) (min max : Int) (r : ℚ) : Except String Unit × List Call :=
  let vp := getVirtualPersons env min max r
  let rd := resolvePersonsData env ((vp.1).map toPerson)
  match rd.1 with
  | Except.error e => (Except.error e, vp.2 ++ rd.2)
  | Except.ok personsData =>
      let sp := savePersonsData env personsData
      let ri := resolvePersonImages env 0 sp.1
      (Except.ok (), vp.2 ++ rd.2 ++ sp.2 ++ ri.2)

/-- The calls forbidden once deduplication has left zero candidates: chat
completions for biographies, creates, image requests, uploads and patches.
(The names request and the find are the calls of the stages up to and
including deduplication; warnings and delays are not adapter calls.) -/
def isPostDedupCall : Call → Bool
  | Call.chatBio _ => true
  | Call.create _ => true
  | Call.getPicture _ => true
  | Call.upload _ => true
  | Call.patch _ _ => true
  | _ => false

/-- Keep only the image-service picture requests of a trace. -/
def isGetPicture : Call → Bool
  | Call.getPicture _ => true
  | _ => false

/-- A concrete environment for witnesses: the image service never returns a
URL, the store is empty, and `create` assigns identifier 1. -/
def sampleEnvBase : Env :=
  { projectName := "example.com"
    projectId := "project1"
    userId := "user1"
    namesOracle := fun _ => []
    db := []
    createOracle := fun p => { p with id := some 1 }
    picOracle := fun _ => none
    uploadOracle := fun url => url
    createFileName := fun name => name
    delays := fun _ => 1500 }

/-- A concrete environment in which the one candidate the text adapter
returns is already stored under its encoded name, so deduplication leaves
zero candidates. -/
def sampleEnvDedup : Env :=
  { sampleEnvBase with
      namesOracle := fun _ => ["Alice"]
      db := [{ name := "Alice", nameEncoded := encodeName "Alice" }] }

/-! ### Codec lemmas: base64 and UTF-8 round-trips -/

/-- `b64Inv` inverts `b64Char` on 6-bit values. -/
theorem b64Inv_b64Char {i : Nat} (h : i < 64) : b64Inv (b64Char i) = i := by
  have hall : ∀ j : Fin 64, b64Inv (b64Char j.val) = j.val := by decide
  exact hall ⟨i, h⟩

/-- No base64 digit is the padding character. -/
theorem b64Char_ne_pad {i : Nat} (h : i < 64) : b64Char i ≠ '=' := by
  have hall : ∀ j : Fin 64, b64Char j.val ≠ '=' := by decide
  exact hall ⟨i, h⟩

/-- `b64Decode` inverts `b64Encode` on byte lists. -/
theorem b64Decode_b64Encode : ∀ l : List Nat, (∀ b ∈ l, b < 256) →
    b64Decode (b64Encode l) = some l
  | [] => fun _ => rfl
  | [b1] => fun h => by
      have hb1 : b1 < 256 := h b1 (List.mem_singleton.mpr rfl)
      simp only [b64Encode, b64Decode]
      rw [if_pos (by simp), b64Inv_b64Char (by omega), b64Inv_b64Char (by omega)]
      have harith : b1 / 4 * 4 + b1 % 4 * 16 / 16 = b1 := by omega
      rw [harith]
  | [b1, b2] => fun h => by
      have hb1 : b1 < 256 := h b1 (by simp)
      have hb2 : b2 < 256 := h b2 (by simp)
      have h3 : b2 % 16 * 4 < 64 := by omega
      simp only [b64Encode, b64Decode]
      rw [if_neg (by simp [b64Char_ne_pad h3]), if_pos (by simp),
        b64Inv_b64Char (by omega), b64Inv_b64Char (by omega), b64Inv_b64Char (by omega)]
      have ha1 : b1 / 4 * 4 + (b1 % 4 * 16 + b2 / 16) / 16 = b1 := by omega
      have ha2 : (b1 % 4 * 16 + b2 / 16) % 16 * 16 + b2 % 16 * 4 / 4 = b2 := by omega
      rw [ha1, ha2]
  | b1 :: b2 :: b3 :: rest => fun h => by
      have hb1 : b1 < 256 := h b1 (by simp)
      have hb2 : b2 < 256 := h b2 (by simp)
      have hb3 : b3 < 256 := h b3 (by simp)
      have h3 : b2 % 16 * 4 + b3 / 64 < 64 := by omega
      have h4 : b3 % 64 < 64 := by omega
      have ih := b64Decode_b64Encode rest (fun b hb => h b (by simp [hb]))
      simp only [b64Encode, b64Decode]
      rw [if_neg (by simp [b64Char_ne_pad h3]), if_neg (by simp [b64Char_ne_pad h4]), ih]
      simp only [Option.map_some']
      rw [b64Inv_b64Char (by omega), b64Inv_b64Char (by omega),
          b64Inv_b64Char h3, b64Inv_b64Char h4]
      have ha1 : b1 / 4 * 4 + (b1 % 4 * 16 + b2 / 16) / 16 = b1 := by omega
      have ha2 : (b1 % 4 * 16 + b2 / 16) % 16 * 16 + (b2 % 16 * 4 + b3 / 64) / 4 = b2 := by
        omega
      have ha3 : (b2 % 16 * 4 + b3 / 64) % 4 * 64 + b3 % 64 = b3 := by omega
      rw [ha1, ha2, ha3]

/-- Injectivity of base64 on byte lists, from the round-trip. -/
theorem b64Encode_injOn {l1 l2 : List Nat} (h1 : ∀ b ∈ l1, b < 256)
    (h2 : ∀ b ∈ l2, b < 256) (he : b64Encode l1 = b64Encode l2) : l1 = l2 := by
  have e1 := b64Decode_b64Encode l1 h1
  have e2 := b64Decode_b64Encode l2 h2
  rw [he, e2] at e1
  exact (Option.some.inj e1).symm

/-- Every Unicode scalar value is below 0x110000. -/
theorem char_toNat_lt (c : Char) : c.toNat < 1114112 := by
  rcases (c.valid : c.val.toNat < 55296 ∨ (57344 ≤ c.val.toNat ∧ c.val.toNat < 1114112))
    with h | h
  · exact Nat.lt_of_lt_of_le h (by norm_num)
  · exact h.2

/-- The bytes of one UTF-8 encoded character are bytes. -/
theorem utf8Char_lt_256 (c : Char) : ∀ b ∈ utf8Char c, b < 256 := by
  intro b hb
  have hv := char_toNat_lt c
  simp only [utf8Char] at hb
  split at hb
  · simp only [List.mem_singleton] at hb
    omega
  · split at hb
    · simp only [List.mem_cons, List.mem_singleton, List.not_mem_nil, or_false] at hb
      rcases hb with rfl | rfl <;> omega
    · split at hb
      · simp only [List.mem_cons, List.mem_singleton, List.not_mem_nil, or_false] at hb
        rcases hb with rfl | rfl | rfl <;> omega
      · simp only [List.mem_cons, List.mem_singleton, List.not_mem_nil, or_false] at hb
        rcases hb with rfl | rfl | rfl | rfl <;> omega

/-- The bytes of a UTF-8 encoded character list are bytes. -/
theorem utf8Encode_lt_256 (s : List Char) : ∀ b ∈ utf8Encode s, b < 256 := by
  induction s with
  | nil => intro b hb; simp [utf8Encode] at hb
  | cons c cs ih =>
      intro b hb
      simp only [utf8Encode, List.mem_append] at hb
      rcases hb with hb | hb
      · exact utf8Char_lt_256 c b hb
      · exact ih b hb

/-- Each character encodes to at least one byte. -/
theorem utf8Char_length_pos (c : Char) : 1 ≤ (utf8Char c).length := by
  simp only [utf8Char]
  split
  · simp
  · split
    · simp
    · split <;> simp

/-- A character list never encodes to fewer bytes than characters. -/
theorem utf8Encode_length (s : List Char) : s.length ≤ (utf8Encode s).length := by
  induction s with
  | nil => simp [utf8Encode]
  | cons c cs ih =>
      have := utf8Char_length_pos c
      simp only [utf8Encode, List.length_append, List.length_cons]
      omega

/-- `utf8DecodeChar` inverts `utf8Char` and hands back the remaining
bytes. -/
theorem utf8DecodeChar_utf8Char (c : Char) (rest : List Nat) :
    utf8DecodeChar ((utf8Char c).headD 0) ((utf8Char c).tail ++ rest) =
      some (c, rest) := by
  have hv := char_toNat_lt c
  by_cases h1 : c.toNat < 128
  · simp only [utf8Char, if_pos h1, List.headD_cons, List.tail_cons, List.nil_append,
      utf8DecodeChar]
    rw [Char.ofNat_toNat]
  · by_cases h2 : c.toNat < 2048
    · simp only [utf8Char, if_neg h1, if_pos h2, List.headD_cons, List.tail_cons,
        List.cons_append, List.nil_append, utf8DecodeChar]
      rw [if_neg (by omega), if_pos (by omega)]
      have harith : (192 + c.toNat / 64 - 192) * 64 + (128 + c.toNat % 64 - 128) = c.toNat := by
        omega
      rw [harith, Char.ofNat_toNat]
    · by_cases h3 : c.toNat < 65536
      · simp only [utf8Char, if_neg h1, if_neg h2, if_pos h3, List.headD_cons,
          List.tail_cons, List.cons_append, List.nil_append, utf8DecodeChar]
        rw [if_neg (by omega), if_neg (by omega), if_pos (by omega)]
        have harith : (224 + c.toNat / 4096 - 224) * 4096 +
            (128 + c.toNat / 64 % 64 - 128) * 64 +
            (128 + c.toNat % 64 - 128) = c.toNat := by omega
        rw [harith, Char.ofNat_toNat]
      · simp only [utf8Char, if_neg h1, if_neg h2, if_neg h3, List.headD_cons,
          List.tail_cons, List.cons_append, List.nil_append, utf8DecodeChar]
        rw [if_neg (by omega), if_neg (by omega), if_neg (by omega)]
        have harith : (240 + c.toNat / 262144 - 240) * 262144 +
            (128 + c.toNat / 4096 % 64 - 128) * 4096 +
            (128 + c.toNat / 64 % 64 - 128) * 64 + (128 + c.toNat % 64 - 128) = c.toNat := by
          omega
        rw [harith, Char.ofNat_toNat]

/-- `utf8DecodeAux` consumes one encoded character and continues. -/
theorem utf8DecodeAux_utf8Char (fuel : Nat) (c : Char) (rest : List Nat) :
    utf8DecodeAux (fuel + 1) (utf8Char c ++ rest) =
      (utf8DecodeAux fuel rest).map (fun t => c :: t) := by
  obtain ⟨b, bs, hbs⟩ : ∃ b bs, utf8Char c = b :: bs := by
    cases hu : utf8Char c with
    | nil => have := utf8Char_length_pos c; simp [hu] at this
    | cons b bs => exact ⟨b, bs, rfl⟩
  have hdec := utf8DecodeChar_utf8Char c rest
  rw [hbs] at hdec
  simp only [List.headD_cons, List.tail_cons] at hdec
  rw [hbs, List.cons_append]
  simp only [utf8DecodeAux, hdec]

/-- `utf8DecodeAux` inverts `utf8Encode` for any sufficient fuel. -/
theorem utf8DecodeAux_utf8Encode (s : List Char) : ∀ fuel : Nat, s.length ≤ fuel →
    utf8DecodeAux fuel (utf8Encode s) = some s := by
  induction s with
  | nil => intro fuel _; cases fuel <;> rfl
  | cons c cs ih =>
      intro fuel hf
      cases fuel with
      | zero => simp at hf
      | succ f =>
          simp only [utf8Encode]
          rw [utf8DecodeAux_utf8Char, ih f (by simpa using hf)]
          rfl

/-- `utf8Decode` inverts `utf8Encode`. -/
theorem utf8Decode_utf8Encode (s : List Char) : utf8Decode (utf8Encode s) = some s :=
  utf8DecodeAux_utf8Encode s (utf8Encode s).length
    (Nat.le_trans (utf8Encode_length s) (Nat.le_refl _))

/-- Injectivity of `encodeName` on strings. -/
theorem encodeName_inj {a b : String} (h : encodeName a = encodeName b) : a = b := by
  unfold encodeName at h
  injection h with hl
  have h2 : utf8Encode a.data = utf8Encode b.data :=
    b64Encode_injOn (utf8Encode_lt_256 a.data) (utf8Encode_lt_256 b.data) hl
  have d1 := utf8Decode_utf8Encode a.data
  rw [h2, utf8Decode_utf8Encode] at d1
  have h3 : a.data = b.data := (Option.some.inj d1).symm
  cases a
  cases b
  exact congrArg String.mk h3

/-- A person whose `headshot` is truthy is skipped whole by
`resolvePersonImages`: the output keeps the person unchanged and the trace
is exactly the trace of the remaining persons. -/
theorem resolvePersonImages_skip (env : Env) (k : Nat) (p : Person)
    (rest : List Person) (h : jsTruthy p.headshot = true) :
    resolvePersonImages env k (p :: rest) =
      (p :: (resolvePersonImages env k rest).1, (resolvePersonImages env k rest).2) := by
  simp [resolvePersonImages, h]

/-! ### Claim theorems -/

/-- C5, counterexample: the claimed fixed template
"Photo headshot for the \x7bname\x7d, Aged 30-40 years old." is not the prompt the
code sends. At the name Alice the source template literal yields a prompt
with a space before the comma, so the claimed prompt differs from the sent
one. -/
theorem headshotPrompt_counterexample :
    (generateHeadshotRequest "Alice").query ≠
      "Photo headshot for the Alice, Aged 30-40 years old." := by
  decide

/-- C5, amended: every headshot image request uses the backend named
midjourney, aspect ratio 1:1, an empty list of styles, and the prompt
template "Photo headshot for the \x7bname\x7d , Aged 30-40 years old." (with a
space before the comma) with the name of the person substituted. -/
theorem generateHeadshotRequest_spec (name : String) :
    generateHeadshotRequest name =
      { serviceName := "midjourney"
        styles := []
        aspectRatio := "1:1"
        query := "Photo headshot for the " ++ name ++ " , Aged 30-40 years old." } :=
  rfl

/-- C6: for all integers min < max and every outcome of the random draw
(a rational in `[0, 1)`), the candidate count computed by
`getRandomVirtualPersons` lies in the half-open interval `[min, max)`. -/
theorem getRandomCount_mem_Ico (min max : Int) (r : ℚ)
    (hlt : min < max) (hr0 : 0 ≤ r) (hr1 : r < 1) :
    min ≤ getRandomCount min max r ∧ getRandomCount min max r < max := by
  have hd : (min : ℚ) < (max : ℚ) := by exact_mod_cast hlt
  have hnn : (0 : ℚ) ≤ r * ((max : ℚ) - (min : ℚ)) :=
    mul_nonneg hr0 (by linarith)
  have hub : r * ((max : ℚ) - (min : ℚ)) < (max : ℚ) - (min : ℚ) :=
    mul_lt_of_lt_one_left (by linarith) hr1
  constructor
  · exact Int.le_floor.mpr (by linarith)
  · exact Int.floor_lt.mpr (by linarith)

/-- C6 witness: at min 1, max 3 and draw one half the count is in `[1, 3)`. -/
theorem getRandomCount_mem_Ico_witness :
    1 ≤ getRandomCount 1 3 (1 / 2) ∧ getRandomCount 1 3 (1 / 2) < 3 :=
  getRandomCount_mem_Ico 1 3 (1 / 2) (by decide) (by norm_num) (by norm_num)

/-- C4: `savePersonsData` passes every record carrying a storage identifier
through unchanged and creates the rest: the returned list has one record
per input record in input order (the input itself where the identifier is
present, the result of the create elsewhere), the create calls are exactly
one per identifier-less record with the spread payload, and the payload
keeps the resolved fields and adds the encoded name, the derived filename
and the project and owner references. -/
theorem savePersonsData_spec (env : Env) (l : List Person) :
    (savePersonsData env l).1 =
      l.map (fun p => if p.id.isSome then p else env.createOracle (createPayload env p)) ∧
    (savePersonsData env l).2 =
      (l.filter (fun p => p.id.isNone)).map (fun p => Call.create (createPayload env p)) ∧
    ∀ p : Person,
      (createPayload env p).name = p.name ∧
      (createPayload env p).biography = p.biography ∧
      (createPayload env p).status = p.status ∧
      (createPayload env p).nameEncoded = some (encodeName p.name) ∧
      (createPayload env p).link = some (env.createFileName p.name) ∧
      (createPayload env p).projectId = some env.projectId ∧
      (createPayload env p).userId = some env.userId := by
  refine ⟨?_, ?_, fun p => ⟨rfl, rfl, rfl, rfl, rfl, rfl, rfl⟩⟩
  · induction l with
    | nil => rfl
    | cons p rest ih =>
        simp only [savePersonsData, List.map_cons]
        cases hh : p.id <;> simp [hh, ih]
  · induction l with
    | nil => rfl
    | cons p rest ih =>
        simp only [savePersonsData, List.filter_cons]
        cases hh : p.id <;> simp [hh, ih]

/-- C4 witness: on a list of one fresh person Dan and one already stored
person Gil, the run returns the created Dan (with the spread payload) and
the untouched Gil, and makes exactly the one create call for Dan. -/
theorem savePersonsData_spec_witness :
    (savePersonsData sampleEnvBase
        [{ name := "Dan" }, { name := "Gil", id := some 5 }]).1 =
      [{ name := "Dan", id := some 1, nameEncoded := some (encodeName "Dan"),
         link := some "Dan", projectId := some "project1", userId := some "user1",
         projectName := some "example.com" },
       { name := "Gil", id := some 5 }] ∧
    (savePersonsData sampleEnvBase
        [{ name := "Dan" }, { name := "Gil", id := some 5 }]).2 =
      [Call.create
        { name := "Dan", nameEncoded := some (encodeName "Dan"),
          link := some "Dan", projectId := some "project1", userId := some "user1",
          projectName := some "example.com" }] := by
  have h := savePersonsData_spec sampleEnvBase
    [{ name := "Dan" }, { name := "Gil", id := some 5 }]
  exact ⟨h.1.trans (by decide), h.2.1.trans (by decide)⟩

/-- C5 amended claim witness: the concrete request for Alice. -/
theorem generateHeadshotRequest_spec_witness :
    generateHeadshotRequest "Alice" =
      { serviceName := "midjourney"
        styles := []
        aspectRatio := "1:1"
        query := "Photo headshot for the Alice , Aged 30-40 years old." } :=
  generateHeadshotRequest_spec "Alice"

/-- C8: candidate filtering is idempotent: filtering an already filtered
candidate list against the same stored records changes nothing. -/
theorem filterExistingPersons_idempotent (db : List DbRecord) (persons : List String) :
    filterExistingPersons db (filterExistingPersons db persons) =
      filterExistingPersons db persons := by
  simp only [filterExistingPersons]
  apply List.filter_eq_self.mpr
  intro p hp
  rw [List.mem_filter, decide_eq_true_eq] at hp
  obtain ⟨hmem, hkeep⟩ := hp
  rw [decide_eq_true_eq]
  intro hbad
  apply hkeep
  rw [List.mem_map] at hbad ⊢
  obtain ⟨rec, hrec, hname⟩ := hbad
  refine ⟨rec, ?_, hname⟩
  rw [List.mem_filter, decide_eq_true_eq] at hrec ⊢
  obtain ⟨hdb, henc⟩ := hrec
  refine ⟨hdb, ?_⟩
  rw [List.mem_map] at henc ⊢
  obtain ⟨q, hq, hqe⟩ := henc
  exact ⟨q, (List.mem_filter.mp hq).1, hqe⟩

/-- C8 witness: filtering the candidates Alice and Bob against a store
holding Alice a second time changes nothing. -/
theorem filterExistingPersons_idempotent_witness :
    filterExistingPersons [{ name := "Alice", nameEncoded := encodeName "Alice" }]
        (filterExistingPersons [{ name := "Alice", nameEncoded := encodeName "Alice" }]
          ["Alice", "Bob"]) =
      filterExistingPersons [{ name := "Alice", nameEncoded := encodeName "Alice" }]
        ["Alice", "Bob"] :=
  filterExistingPersons_idempotent
    [{ name := "Alice", nameEncoded := encodeName "Alice" }] ["Alice", "Bob"]

/-- C9: a record already carrying a headshot (a non-empty headshot URL, the
source tests the field for truthiness) is never re-requested for image
generation: the image requests of a run on the record followed by the rest
are exactly the image requests of a run on the rest alone. -/
theorem resolvePersonImages_no_request_when_headshot (env : Env) (k : Nat)
    (p : Person) (rest : List Person) (u : String)
    (hheads : p.headshot = some u) (hne : u ≠ "") :
    ((resolvePersonImages env k (p :: rest)).2).filter isGetPicture =
      ((resolvePersonImages env k rest).2).filter isGetPicture := by
  rw [resolvePersonImages_skip env k p rest (by simp [jsTruthy, hheads, hne])]

/-- C9 witness: a person that already carries the headshot h.png adds no
image request to a run. -/
theorem resolvePersonImages_no_request_witness :
    ((resolvePersonImages sampleEnvBase 0
        [{ name := "Ann", headshot := some "h.png" }]).2).filter isGetPicture =
      ((resolvePersonImages sampleEnvBase 0 []).2).filter isGetPicture :=
  resolvePersonImages_no_request_when_headshot sampleEnvBase 0
    { name := "Ann", headshot := some "h.png" } [] "h.png" rfl (by decide)

/-- C10: a record already carrying a headshot (non-empty, as tested by the
source) is skipped entirely by `resolvePersonImages`: besides making no
image request it adds no patch call and no delay to the trace, and the
record comes out with all fields unchanged. -/
theorem resolvePersonImages_skip_frame (env : Env) (k : Nat)
    (p : Person) (rest : List Person) (u : String)
    (hheads : p.headshot = some u) (hne : u ≠ "") :
    resolvePersonImages env k (p :: rest) =
      (p :: (resolvePersonImages env k rest).1, (resolvePersonImages env k rest).2) :=
  resolvePersonImages_skip env k p rest (by simp [jsTruthy, hheads, hne])

/-- C10 witness: a one-person run on a person already carrying the headshot
e.png returns the person unchanged and an empty trace. -/
theorem resolvePersonImages_skip_frame_witness :
    resolvePersonImages sampleEnvBase 0 [{ name := "Eve", headshot := some "e.png" }] =
      ([{ name := "Eve", headshot := some "e.png" }], []) :=
  resolvePersonImages_skip_frame sampleEnvBase 0
    { name := "Eve", headshot := some "e.png" } [] "e.png" rfl (by decide)

/-- C3: when the image service returns no URL for a person lacking a
headshot, the record is still patched, with its headshot still absent, and
the run continues with the remaining persons (the batch is not aborted). -/
theorem resolvePersonImages_noUrl_patches_and_continues (env : Env) (k : Nat)
    (p : Person) (rest : List Person)
    (hhs : p.headshot = none)
    (hpic : env.picOracle (generateHeadshotRequest p.name) = none) :
    resolvePersonImages env k (p :: rest) =
      (p :: (resolvePersonImages env (k + 1) rest).1,
       Call.getPicture (generateHeadshotRequest p.name) ::
       Call.warn "Failed to generate headshot" ::
       Call.patch p.id p ::
       Call.delay (env.delays k) :: (resolvePersonImages env (k + 1) rest).2) := by
  simp [resolvePersonImages, generateHeadshot, jsTruthy, hhs, hpic]

/-- C3 witness: with an image service that never returns a URL, a run on
Bob alone patches the unchanged record, without a headshot, after the
failed request. -/
theorem resolvePersonImages_noUrl_witness :
    resolvePersonImages sampleEnvBase 0 [{ name := "Bob" }] =
      ([{ name := "Bob" }],
       [Call.getPicture (generateHeadshotRequest "Bob"),
        Call.warn "Failed to generate headshot",
        Call.patch none { name := "Bob" },
        Call.delay 1500]) :=
  resolvePersonImages_noUrl_patches_and_continues sampleEnvBase 0
    { name := "Bob" } [] rfl rfl

/-- C1: the documented behaviour of `resolvePersonsData` (return the list
of candidates with biography and status attached) is not what the code
does: for a candidate lacking both fields the biography request is made,
and then `personData.push` is called on the response object, which has no
`push` method, so the call throws a TypeError and no resolved record is
ever returned. Evaluated here at the single candidate Alice. -/
theorem resolvePersonsData_typeError_eval :
    resolvePersonsData sampleEnvBase [{ name := "Alice" }] =
      (Except.error "TypeError: personData.push is not a function",
       [Call.chatBio (getPersonDataPrompt "example.com" "Alice")]) := by
  rfl

/-- C2: if deduplication leaves zero remaining candidates, the pipeline
makes no further adapter call of any kind: the full trace of `init`
contains no biography request, no create, no image request, no upload and
no patch. -/
theorem init_no_calls_after_empty_dedup (env : Env) (min max : Int) (r : ℚ)
    (h : filterExistingPersons env.db
          (env.namesOracle (namesPrompt env.projectName (getRandomCount min max r))) = []) :
    ((init env min max r).2).filter isPostDedupCall = [] := by
  simp only [init, getVirtualPersons, getRandomVirtualPersons, filterExistingPersonsT, h,
    List.map_nil, resolvePersonsData, savePersonsData, resolvePersonImages,
    List.length_nil, List.append_nil, List.nil_append, List.filter_append,
    List.filter_cons, List.filter_nil, isPostDedupCall]
  split <;> simp_all [isPostDedupCall]

/-- C2 witness: in the environment where the only candidate Alice is
already stored, a run of the whole pipeline makes no post-deduplication
adapter call. -/
theorem init_no_calls_after_empty_dedup_witness :
    ((init sampleEnvDedup 1 2 0).2).filter isPostDedupCall = [] :=
  init_no_calls_after_empty_dedup sampleEnvDedup 1 2 0 (by decide)

/-- Sanity check of the embedded codec against the encoding Node produces:
`Buffer.from("Alice").toString` with base64 yields QWxpY2U=. -/
theorem encodeName_Alice : encodeName "Alice" = "QWxpY2U=" := by decide

/-- C7: `encodeName` is deterministic — equal names always yield equal
encoded keys — and injective: distinct name strings yield distinct encoded
keys. -/
theorem encodeName_deterministic_injective :
    (∀ a b : String, a = b → encodeName a = encodeName b) ∧
    (∀ a b : String, a ≠ b → encodeName a ≠ encodeName b) := by
  constructor
  · intro a b h
    rw [h]
  · intro a b hne he
    exact hne (encodeName_inj he)

/-- C7 witness: equal names (Alice, Alice) give equal keys and the distinct
names Alice and Bob give distinct keys. -/
theorem encodeName_deterministic_injective_witness :
    encodeName "Alice" = encodeName "Alice" ∧ encodeName "Alice" ≠ encodeName "Bob" :=
  ⟨encodeName_deterministic_injective.1 "Alice" "Alice" rfl,
   encodeName_deterministic_injective.2 "Alice" "Bob" (by decide)⟩

end VirtualPersons
